import Mathlib

/-!
Verification development for the `audiotext` repository (TikTok content
pipeline + memory subsystem).  Each Python function relevant to the frozen
claims is shallowly embedded as an executable Lean definition; external
effects (provider calls, the database, the filesystem) appear as explicit
parameters describing their outcomes.  Python floats (timestamps,
durations) are modelled as rationals.
-/

namespace Audiotext

/-! ## RateLimiter (src/app/rate_limiter.py)

`is_allowed` works on a per-user deque of request timestamps.  We embed the
deque as a `List ℚ` (front = oldest) and `time.time()` as the parameter
`now`.  The configured limits `settings.max_requests_per_minute` /
`settings.max_requests_per_hour` are the parameters `maxMin` / `maxHour`.
-/

/-- Result of one `is_allowed` check: the returned pair plus the mutated
per-user window. -/
structure RLResult where
  allowed : Bool
  reason : String
  window : List ℚ
  deriving Repr, DecidableEq

/-- The `while user_requests and current_time - user_requests[0] > 3600:
popleft()` loop of `is_allowed`: drops leading timestamps strictly older
than 3600 seconds. -/
def dropOldLoop (now : ℚ) : List ℚ → List ℚ
  | [] => []
  | t :: rest => if now - t > 3600 then dropOldLoop now rest else t :: rest

/-- The minute-limit rejection message built by `is_allowed`
(f-string with the configured per-minute limit interpolated). -/
def minuteMsg (maxMin : ℕ) : String :=
  "Превышен лимит запросов в минуту (" ++ toString maxMin ++ "). Попробуйте через минуту."

/-- The hour-limit rejection message built by `is_allowed`. -/
def hourMsg (maxHour : ℕ) : String :=
  "Превышен лимит запросов в час (" ++ toString maxHour ++ "). Попробуйте через час."

/-- Embeds `RateLimiter.is_allowed` (src/app/rate_limiter.py, lines 22-48):
clean entries older than one hour from the front of the deque, count
entries newer than `now - 60` and `now - 3600`, reject (without recording)
when a limit is met-or-exceeded, otherwise append `now` and allow. -/
def isAllowed (maxMin maxHour : ℕ) (now : ℚ) (w : List ℚ) : RLResult :=
  if maxMin ≤ ((dropOldLoop now w).filter (fun t => now - 60 < t)).length then
    ⟨false, minuteMsg maxMin, dropOldLoop now w⟩
  else if maxHour ≤ ((dropOldLoop now w).filter (fun t => now - 3600 < t)).length then
    ⟨false, hourMsg maxHour, dropOldLoop now w⟩
  else ⟨true, "", dropOldLoop now w ++ [now]⟩

/-- On a window sorted in arrival order (the invariant of the real deque,
which is only ever appended with the current time), the popleft loop
removes exactly the timestamps strictly older than 3600 seconds. -/
theorem dropOldLoop_eq_filter (now : ℚ) (w : List ℚ)
    (hs : w.Sorted (· ≤ ·)) :
    dropOldLoop now w = w.filter (fun t => ¬ now - t > 3600) := by
  induction w with
  | nil => rfl
  | cons t rest ih =>
    rw [List.sorted_cons] at hs
    by_cases h : now - t > 3600
    · simp only [dropOldLoop, if_pos h]
      rw [ih hs.2, List.filter_cons]
      simp [h]
    · simp only [dropOldLoop, if_neg h]
      have hall : ∀ x ∈ t :: rest, ¬ now - x > 3600 := by
        intro x hx
        rcases List.mem_cons.mp hx with rfl | hx
        · exact h
        · have ht : t ≤ x := hs.1 x hx
          intro hgt
          exact h (by linarith)
      rw [List.filter_eq_self.mpr]
      intro x hx
      simpa using hall x hx

/-! ## MemoryStore (src/app/memory.py)

The Supabase table is embedded as a `List Entry` in insertion order.
External effects appear as explicit parameters: `hash` stands for the
md5-hexdigest-truncated-to-16 `_content_hash` digest, `emb` for the
result of `_get_embedding` (`[]` on provider failure, as in the source),
`persistOk` for `result.data` being truthy after the insert, and
`newId` / `now` for the database-assigned row id and `created_at`
timestamp (ISO strings ordered chronologically, embedded as `ℕ`).
Configuration values read from `settings` are parameters. -/

/-- One row of the Supabase memory table, with the fields `add_memory`
inserts. -/
structure Entry where
  id : ℕ
  user : ℕ
  hash : String
  contentType : String
  sourceUrl : Option String
  content : String
  analysis : String
  embedding : Option (List ℚ)
  summary : String
  createdAt : ℕ
  deriving Repr, DecidableEq

/-- Substring test on character lists (used to embed Python's `in` on
strings and SQL `ilike '%pat%'`). -/
def charsContains : List Char → List Char → Bool
  | needle, [] => needle.isEmpty
  | needle, c :: t => needle.isPrefixOf (c :: t) || charsContains needle t

/-- Python `needle in hay` for strings. -/
def strContains (hay needle : String) : Bool :=
  charsContains needle.data hay.data

/-- The characters removed by Python's default `str.strip()`. -/
def isPySpace (c : Char) : Bool :=
  c = ' ' || c = '\t' || c = '\n' || c = '\r' || c = '\x0b' || c = '\x0c'

/-- Python `str.strip()` (default whitespace). -/
def stripStr (s : String) : String :=
  ⟨((s.data.dropWhile isPySpace).reverse.dropWhile isPySpace).reverse⟩

/-- Python `str.lower()` (ASCII range; the inputs the claims exercise do
not depend on non-ASCII case folding). -/
def lowerStr (s : String) : String := ⟨s.data.map Char.toLower⟩

/-- Python `str.upper()` (ASCII range). -/
def upperStr (s : String) : String := ⟨s.data.map Char.toUpper⟩

/-- Python `str.startswith`. -/
def startsWithStr (s pre : String) : Bool := pre.data.isPrefixOf s.data

/-- Split a character list at every occurrence of `sep`. -/
def splitCharAux (sep : Char) : List Char → List Char → List (List Char)
  | [], acc => [acc.reverse]
  | c :: rest, acc =>
    if c = sep then acc.reverse :: splitCharAux sep rest []
    else splitCharAux sep rest (c :: acc)

/-- Python `s.split(sep)` for a one-character separator. -/
def splitStr (sep : Char) (s : String) : List String :=
  (splitCharAux sep s.data []).map (fun cs => ⟨cs⟩)

/-- The `for line in lines` loop of `_extract_summary`: find the summary
marker, then collect up to three following non-empty lines, stopping at
the checklist section.  (Python's `.upper()` is embedded as `toUpper`,
which like the claims only needs to recognise markers already written in
upper case.) -/
def summaryLoop : List String → Bool → List String → List String
  | [], _, acc => acc
  | line :: rest, inSummary, acc =>
    if strContains (upperStr line) "РЕЗЮМЕ" || strContains (upperStr line) "SUMMARY" then
      summaryLoop rest true acc
    else if inSummary then
      if (startsWithStr (stripStr line) "2." || startsWithStr (stripStr line) "ЧЕКЛИСТ"
          || startsWithStr (stripStr line) "CHECKLIST") then acc
      else if stripStr line ≠ "" then
        (if 3 ≤ acc.length + 1 then acc ++ [stripStr line]
         else summaryLoop rest inSummary (acc ++ [stripStr line]))
      else summaryLoop rest inSummary acc
    else summaryLoop rest inSummary acc

/-- Embeds `MemoryStore._extract_summary` (src/app/memory.py, lines 53-74). -/
def extractSummary (analysis : String) : String :=
  let ls := summaryLoop (splitStr '\n' analysis) false []
  if ls ≠ [] then (String.intercalate " " ls).take 500
  else stripStr (analysis.take 200)

/-- Stable insertion into a list sorted by `created_at` ascending. -/
def sortedInsert (e : Entry) : List Entry → List Entry
  | [] => [e]
  | x :: xs => if e.createdAt < x.createdAt then e :: x :: xs else x :: sortedInsert e xs

/-- The database's `order("created_at", desc=False)` on a set of rows,
embedded as an insertion sort by `created_at`. -/
def sortByCreated : List Entry → List Entry
  | [] => []
  | e :: es => sortedInsert e (sortByCreated es)

/-- Embeds `MemoryStore._enforce_max_entries` (src/app/memory.py, lines 145-171):
count the user's rows; when over `settings.memory_max_entries`, select the
`excess` oldest rows (ordered by `created_at` ascending) and delete them
by id. -/
def enforceMaxEntries (maxE : ℕ) (user : ℕ) (table : List Entry) : List Entry :=
  if maxE < (table.filter (fun e => e.user == user)).length then
    table.filter (fun e =>
      !decide (e.id ∈ ((sortByCreated (table.filter (fun e2 => e2.user == user))).take
          ((table.filter (fun e2 => e2.user == user)).length - maxE)).map
            (fun o => o.id)))
  else table

/-- The row dict built inside `add_memory` (src/app/memory.py, lines
117-127), with the database-assigned id. -/
def mkEntry (hash : String → String) (emb : List ℚ) (newId now : ℕ)
    (user : ℕ) (content analysis : String) (sourceUrl : Option String)
    (contentType : String) : Entry :=
  { id := newId, user := user, hash := hash content,
    contentType := contentType, sourceUrl := sourceUrl,
    content := content.take 5000, analysis := analysis.take 10000,
    embedding := if emb = [] then none else some emb,
    summary := extractSummary analysis, createdAt := now }

/-- Embeds `MemoryStore.add_memory` (src/app/memory.py, lines 76-143): reject a
duplicate (same user and `_content_hash(content)`) with `False`; otherwise
embed `content + "\n\n" + analysis` (failure gives a null embedding),
insert the row with `content`/`analysis` truncated to 5000/10000
characters, run `_enforce_max_entries`, and return `True`; an insert that
reports no data returns `False`. -/
def addMemory (hash : String → String) (emb : List ℚ) (persistOk : Bool)
    (newId now : ℕ) (maxE : ℕ) (table : List Entry) (user : ℕ)
    (content analysis : String) (sourceUrl : Option String)
    (contentType : String) : Bool × List Entry :=
  if table.filter (fun e => e.user == user && e.hash == hash content) ≠ [] then
    (false, table)
  else if persistOk then
    (true, enforceMaxEntries maxE user (table ++
      [mkEntry hash emb newId now user content analysis sourceUrl contentType]))
  else (false, table)

/-- One row returned by the `match_memories` vector-similarity RPC (an
external SQL function; its rows are an input of the embedding). -/
structure RpcRow where
  id : ℕ
  content : String
  analysis : String
  summary : String
  sourceUrl : Option String
  createdAt : ℕ
  similarity : Option ℚ
  deriving Repr, DecidableEq

/-- One element of the list `search_memory` returns. -/
structure SearchResult where
  id : ℕ
  content : String
  analysis : String
  summary : String
  sourceUrl : Option String
  timestamp : ℕ
  similarity : ℚ
  deriving Repr, DecidableEq

/-- Python's `round(x, 3)` (up to tie-breaking, which rounds half away
from zero here and half to even in CPython). -/
def round3 (q : ℚ) : ℚ := (⌊q * 1000 + 1 / 2⌋ : ℤ) / 1000

/-- Embeds `MemoryStore._keyword_search` (src/app/memory.py, lines 230-263): the
PostgREST filter `user_id = user` and
`or(content.ilike.%query%, analysis.ilike.%query%)` with `limit(top_k)`,
i.e. case-insensitive whole-query substring matching, in table order,
similarity reported as `0.0`.  (`%`/`_` wildcards inside the query are not
modelled.) -/
def keywordSearch (table : List Entry) (user : ℕ) (query : String)
    (topK : ℕ) : List SearchResult :=
  ((table.filter (fun e => e.user == user &&
      (strContains (lowerStr e.content) (lowerStr query) ||
       strContains (lowerStr e.analysis) (lowerStr query)))).take topK).map
    (fun e => { id := e.id, content := e.content, analysis := e.analysis,
                summary := e.summary, sourceUrl := e.sourceUrl,
                timestamp := e.createdAt, similarity := 0 })

/-- Embeds `MemoryStore.search_memory` (src/app/memory.py, lines 173-228): an
empty query embedding (provider failure) or an exception from the vector
RPC falls back to `_keyword_search`; an RPC success with no rows returns
`[]`; otherwise the rows are mapped to result dicts with
`round(similarity, 3)` (missing similarity defaulting to `0`). -/
def searchMemory (emb : List ℚ) (rpc : Except Unit (List RpcRow))
    (table : List Entry) (user : ℕ) (query : String) (topK : ℕ) :
    List SearchResult :=
  if emb = [] then keywordSearch table user query topK
  else
    match rpc with
    | .error _ => keywordSearch table user query topK
    | .ok rows =>
      if rows = [] then []
      else rows.map (fun r => { id := r.id, content := r.content,
                                analysis := r.analysis, summary := r.summary,
                                sourceUrl := r.sourceUrl, timestamp := r.createdAt,
                                similarity := round3 (r.similarity.getD 0) })

/-- Modelled from the spec's words for the claimed fallback behaviour
(spec §4.6: "tokenize the query into a word set, count token occurrences
across each entry's concatenated content+analysis text
(case-insensitive)"): whether an entry shares at least one query token.
Used only to state the counterexample; the source's `_keyword_search`
does whole-query substring matching instead. -/
def specSharesToken (e : Entry) (query : String) : Bool :=
  ((splitStr ' ' (lowerStr query)).filter (fun t => t ≠ "")).any
    (fun t => strContains (lowerStr e.content ++ " " ++ lowerStr e.analysis) t)

/-- C2: on every check, `is_allowed` first drops the timestamps older than
3600 seconds (on a window sorted in arrival order, which the deque always
is); then, if the count of retained timestamps within the last 60 seconds
meets-or-exceeds the per-minute limit it returns `(False, minute-limit
reason)` with the window left at the dropped state (no append); else if
the count within the last 3600 seconds meets-or-exceeds the per-hour limit
it returns `(False, hour-limit reason)` without appending; otherwise it
appends the current timestamp and returns `(True, "")`.  In particular a
rejected attempt is never recorded. -/
theorem isAllowed_spec (maxMin maxHour : ℕ) (now : ℚ) (w : List ℚ)
    (hs : w.Sorted (· ≤ ·)) :
    (isAllowed maxMin maxHour now w).window.all
        (fun t => t = now ∨ ¬ now - t > 3600) ∧
    (maxMin ≤ ((w.filter (fun t => ¬ now - t > 3600)).filter
        (fun t => now - 60 < t)).length →
      isAllowed maxMin maxHour now w =
        ⟨false, minuteMsg maxMin, w.filter (fun t => ¬ now - t > 3600)⟩) ∧
    (((w.filter (fun t => ¬ now - t > 3600)).filter
        (fun t => now - 60 < t)).length < maxMin →
      maxHour ≤ ((w.filter (fun t => ¬ now - t > 3600)).filter
        (fun t => now - 3600 < t)).length →
      isAllowed maxMin maxHour now w =
        ⟨false, hourMsg maxHour, w.filter (fun t => ¬ now - t > 3600)⟩) ∧
    (((w.filter (fun t => ¬ now - t > 3600)).filter
        (fun t => now - 60 < t)).length < maxMin →
      ((w.filter (fun t => ¬ now - t > 3600)).filter
        (fun t => now - 3600 < t)).length < maxHour →
      isAllowed maxMin maxHour now w =
        ⟨true, "", w.filter (fun t => ¬ now - t > 3600) ++ [now]⟩) ∧
    ((isAllowed maxMin maxHour now w).allowed = false →
      (isAllowed maxMin maxHour now w).window =
        w.filter (fun t => ¬ now - t > 3600)) := by
  have hdrop := dropOldLoop_eq_filter now w hs
  unfold isAllowed
  rw [hdrop]
  refine ⟨?_, ?_, ?_, ?_, ?_⟩
  · split
    · simp only [List.all_eq_true]
      intro t ht
      have := List.of_mem_filter ht
      simp only [decide_eq_true_eq] at this
      simpa using Or.inr this
    · split
      · simp only [List.all_eq_true]
        intro t ht
        have := List.of_mem_filter ht
        simp only [decide_eq_true_eq] at this
        simpa using Or.inr this
      · simp only [List.all_eq_true]
        intro t ht
        rcases List.mem_append.mp ht with ht | ht
        · have := List.of_mem_filter ht
          simp only [decide_eq_true_eq] at this
          simpa using Or.inr this
        · simp only [List.mem_singleton] at ht
          simpa using Or.inl ht
  · intro hm
    rw [if_pos hm]
  · intro hm hh
    rw [if_neg (by omega), if_pos hh]
  · intro hm hh
    rw [if_neg (by omega), if_neg (by omega)]
  · split
    · intro _; rfl
    · split
      · intro _; rfl
      · intro hfalse
        simp at hfalse

/-- Witness for C2: a concrete sorted window at the per-minute limit is
rejected with the minute-limit reason and the attempt is not recorded. -/
theorem isAllowed_spec_witness :
    isAllowed 2 5 10000 [5000, 9990, 9995] =
      ⟨false, minuteMsg 2, [9990, 9995]⟩ := by
  have h := (isAllowed_spec 2 5 10000 [5000, 9990, 9995]
      (by norm_num [List.sorted_cons])).2.1 (by norm_num [List.filter])
  rw [h]
  norm_num [List.filter]

/-! Helper lemmas about the insertion-sort embedding of the database's
`order("created_at")`. -/

theorem sortedInsert_append_big (e1 x : Entry) (l : List Entry)
    (hx : x.createdAt < e1.createdAt) :
    sortedInsert x (l ++ [e1]) = sortedInsert x l ++ [e1] := by
  induction l with
  | nil => simp [sortedInsert, hx]
  | cons y ys ih =>
    by_cases h : x.createdAt < y.createdAt
    · simp [sortedInsert, h]
    · simp [sortedInsert, h, ih]

theorem sortByCreated_append_big (e1 : Entry) (l : List Entry)
    (hl : ∀ x ∈ l, x.createdAt < e1.createdAt) :
    sortByCreated (l ++ [e1]) = sortByCreated l ++ [e1] := by
  induction l with
  | nil => simp [sortByCreated, sortedInsert]
  | cons x xs ih =>
    have hx : x.createdAt < e1.createdAt := hl x (by simp)
    have ih' := ih (fun y hy => hl y (by simp [hy]))
    show sortedInsert x (sortByCreated (xs ++ [e1])) =
      sortedInsert x (sortByCreated xs) ++ [e1]
    rw [ih']
    exact sortedInsert_append_big e1 x (sortByCreated xs) hx

theorem sortedInsert_perm (x : Entry) (l : List Entry) :
    (sortedInsert x l).Perm (x :: l) := by
  induction l with
  | nil => simp [sortedInsert]
  | cons y ys ih =>
    by_cases h : x.createdAt < y.createdAt
    · simp [sortedInsert, h]
    · simp only [sortedInsert, if_neg h]
      calc y :: sortedInsert x ys
          |>.Perm (y :: x :: ys) := List.Perm.cons y ih
        _ |>.Perm (x :: y :: ys) := List.Perm.swap x y ys

theorem sortByCreated_perm (l : List Entry) :
    (sortByCreated l).Perm l := by
  induction l with
  | nil => simp [sortByCreated]
  | cons x xs ih =>
    exact (sortedInsert_perm x (sortByCreated xs)).trans (List.Perm.cons x ih)

theorem sortByCreated_eq_self (l : List Entry)
    (hl : l.Pairwise (fun a b => a.createdAt < b.createdAt)) :
    sortByCreated l = l := by
  induction l with
  | nil => rfl
  | cons x xs ih =>
    rw [List.pairwise_cons] at hl
    have ih' := ih hl.2
    simp only [sortByCreated, ih']
    cases xs with
    | nil => rfl
    | cons y ys => simp [sortedInsert, hl.1 y (by simp)]

/-- Deleting, from a list of rows with pairwise-distinct ids, the rows
whose id occurs among the first `k` rows leaves exactly the rows after
the first `k`. -/
theorem filter_not_id_mem_take (u : List Entry) (k : ℕ)
    (hid : (u.map (fun e => e.id)).Nodup) :
    u.filter (fun e => !decide (e.id ∈ (u.take k).map (fun o => o.id))) =
      u.drop k := by
  set ids := (u.take k).map (fun o => o.id) with hids_def
  have hids : (u.map (fun e => e.id)) =
      ids ++ (u.drop k).map (fun o => o.id) := by
    rw [hids_def, ← List.map_append, List.take_append_drop]
  rw [hids] at hid
  rcases List.nodup_append.mp hid with ⟨-, -, hdisj⟩
  have h1 : (u.take k).filter (fun e => !decide (e.id ∈ ids)) = [] := by
    rw [List.filter_eq_nil_iff]
    intro x hx
    simp only [Bool.not_eq_true', decide_eq_false_iff_not, not_not]
    rw [hids_def]
    exact List.mem_map_of_mem _ hx
  have h2 : (u.drop k).filter (fun e => !decide (e.id ∈ ids)) = u.drop k := by
    rw [List.filter_eq_self]
    intro x hx
    simp only [Bool.not_eq_true', decide_eq_false_iff_not]
    exact fun hmem => hdisj hmem (List.mem_map_of_mem _ hx)
  conv_lhs => rw [← List.take_append_drop k u]
  rw [List.filter_append, h1, h2, List.nil_append]

/-- C5: when a user's stored entry count exceeds the configured cap,
`_enforce_max_entries` removes exactly the oldest entries (by creation
time) beyond the cap: afterwards the user's rows are exactly the newest
`cap` ones, still ordered by creation time, and no other user's rows are
touched.  Hypotheses: row ids are pairwise distinct and the user's rows
sit in the table in chronological order with distinct creation times
(the database invariants: ids are unique, rows are appended with a fresh
`created_at`). -/
theorem enforceMaxEntries_evicts_oldest (maxE user : ℕ) (table : List Entry)
    (hid : (table.map (fun e => e.id)).Nodup)
    (hchron : (table.filter (fun e => e.user == user)).Pairwise
      (fun a b => a.createdAt < b.createdAt))
    (hover : maxE < (table.filter (fun e => e.user == user)).length) :
    (enforceMaxEntries maxE user table).filter (fun e => e.user == user) =
      (table.filter (fun e => e.user == user)).drop
        ((table.filter (fun e => e.user == user)).length - maxE) ∧
    ((enforceMaxEntries maxE user table).filter
        (fun e => e.user == user)).length = maxE ∧
    (enforceMaxEntries maxE user table).filter (fun e => !(e.user == user)) =
      table.filter (fun e => !(e.user == user)) := by
  have hsort : sortByCreated (table.filter (fun e => e.user == user)) =
      table.filter (fun e => e.user == user) :=
    sortByCreated_eq_self _ hchron
  have hidu : ((table.filter (fun e => e.user == user)).map
      (fun e => e.id)).Nodup :=
    hid.sublist ((List.filter_sublist table).map _)
  have henf : enforceMaxEntries maxE user table =
      table.filter (fun e => !decide (e.id ∈
        (((table.filter (fun e2 => e2.user == user)).take
          ((table.filter (fun e2 => e2.user == user)).length - maxE)).map
            (fun o => o.id)))) := by
    unfold enforceMaxEntries
    rw [if_pos hover, hsort]
  have hcomm : (enforceMaxEntries maxE user table).filter
      (fun e => e.user == user) =
      (table.filter (fun e => e.user == user)).filter (fun e => !decide (e.id ∈
        (((table.filter (fun e2 => e2.user == user)).take
          ((table.filter (fun e2 => e2.user == user)).length - maxE)).map
            (fun o => o.id)))) := by
    rw [henf, List.filter_filter, List.filter_filter]
    apply List.filter_congr
    intro x _
    exact Bool.and_comm _ _
  have hmain := filter_not_id_mem_take (table.filter (fun e => e.user == user))
    ((table.filter (fun e => e.user == user)).length - maxE) hidu
  refine ⟨?_, ?_, ?_⟩
  · rw [hcomm]
    exact hmain
  · rw [hcomm, hmain, List.length_drop]
    omega
  · rw [henf, List.filter_filter]
    apply List.filter_congr
    intro x hx
    by_cases hxu : x.user == user
    · simp [hxu]
    · have hxf : (x.user == user) = false := by
        cases h : (x.user == user)
        · rfl
        · exact absurd h hxu
      simp only [hxf, Bool.not_false, Bool.true_and, Bool.not_eq_true',
        decide_eq_false_iff_not]
      intro hmem
      rcases List.mem_map.mp hmem with ⟨y, hy, hyid⟩
      have hyu : y ∈ table.filter (fun e2 => e2.user == user) :=
        List.mem_of_mem_take hy
      have hyP : (y.user == user) = true := (List.mem_filter.mp hyu).2
      have hyt : y ∈ table := (List.mem_filter.mp hyu).1
      have hxy : x = y :=
        List.inj_on_of_nodup_map hid hx hyt hyid.symm
      rw [hxy] at hxu
      exact hxu hyP

/-- A concrete memory row used by witnesses. -/
def sampleEntry (i u t : ℕ) : Entry :=
  { id := i, user := u, hash := "h", contentType := "tiktok",
    sourceUrl := none, content := "c", analysis := "a", embedding := none,
    summary := "s", createdAt := t }

/-- Witness for C5: with a cap of 2 and three rows for user 1 (created at
times 10, 20, 30) plus one row of user 2, eviction leaves exactly the two
newest rows of user 1 and does not touch user 2. -/
theorem enforceMaxEntries_evicts_oldest_witness :
    (enforceMaxEntries 2 1 [sampleEntry 1 1 10, sampleEntry 2 1 20,
        sampleEntry 3 1 30, sampleEntry 4 2 15]).filter
      (fun e => e.user == 1) = [sampleEntry 2 1 20, sampleEntry 3 1 30] ∧
    (enforceMaxEntries 2 1 [sampleEntry 1 1 10, sampleEntry 2 1 20,
        sampleEntry 3 1 30, sampleEntry 4 2 15]).filter
      (fun e => !(e.user == 1)) = [sampleEntry 4 2 15] := by
  have h := enforceMaxEntries_evicts_oldest 2 1
    [sampleEntry 1 1 10, sampleEntry 2 1 20, sampleEntry 3 1 30,
     sampleEntry 4 2 15] (by decide) (by decide) (by decide)
  refine ⟨?_, ?_⟩
  · rw [h.1]; decide
  · rw [h.2.2]; decide

/-- On a table that already holds a row with the user's content hash,
`add_memory` rejects and leaves the table unchanged. -/
theorem addMemory_of_dup (hash : String → String) (emb : List ℚ)
    (persistOk : Bool) (newId now maxE : ℕ) (tbl : List Entry) (user : ℕ)
    (content analysis : String) (su : Option String) (ct : String)
    (hdup : tbl.filter (fun e => e.user == user && e.hash == hash content)
      ≠ []) :
    addMemory hash emb persistOk newId now maxE tbl user content analysis
      su ct = (false, tbl) := by
  unfold addMemory
  rw [if_pos hdup]

/-- Filtering a freshly appended row back out of an eviction-filtered
table: the old rows all fail `pred`, the new row passes both `pred` and
the keep-predicate, so exactly the new row remains. -/
theorem filter_pred_append_keep (pred kp : Entry → Bool) (table : List Entry)
    (E1 : Entry) (hT : ∀ e ∈ table, pred e = false) (hp : pred E1 = true)
    (hk : kp E1 = true) :
    (List.filter kp (table ++ [E1])).filter pred = [E1] := by
  rw [List.filter_append, List.filter_append]
  have h1 : (List.filter kp table).filter pred = [] := by
    rw [List.filter_eq_nil_iff]
    intro e he
    simp [hT e (List.mem_of_mem_filter he)]
  have h2 : (List.filter kp [E1]).filter pred = [E1] := by
    simp [List.filter_cons, hk, hp]
  rw [h1, h2, List.nil_append]

/-- C3: after a successful `add_memory(user, C, A1)`, an immediately
following `add_memory(user, C, A2)` — for any analysis `A2`, any
embedding outcome and any persistence outcome — returns `False` and
leaves the table unchanged, because `_content_hash` is computed over the
content alone; exactly one entry with `C`'s content hash exists for that
user.  Hypotheses: the cap is at least 1, the first add reported success,
and the database assigned the new row a fresh id and a `created_at`
newer than every existing row (so the first add's eviction pass cannot
remove the row it just inserted). -/
theorem addMemory_duplicate_content (hash : String → String)
    (emb1 emb2 : List ℚ) (persist2 : Bool) (id1 id2 now1 now2 maxE : ℕ)
    (table : List Entry) (user : ℕ) (C A1 A2 : String)
    (su1 su2 : Option String) (ct1 ct2 : String)
    (hmax : 1 ≤ maxE)
    (hid : id1 ∉ table.map (fun e => e.id))
    (hnew : ∀ e ∈ table, e.createdAt < now1)
    (hok : (addMemory hash emb1 true id1 now1 maxE table user C A1 su1 ct1).1
      = true) :
    addMemory hash emb2 persist2 id2 now2 maxE
        (addMemory hash emb1 true id1 now1 maxE table user C A1 su1 ct1).2
        user C A2 su2 ct2 =
      (false,
        (addMemory hash emb1 true id1 now1 maxE table user C A1 su1 ct1).2) ∧
    (((addMemory hash emb1 true id1 now1 maxE table user C A1 su1 ct1).2).filter
        (fun e => e.user == user && e.hash == hash C)).length = 1 := by
  -- the duplicate check of the first call must have found nothing
  by_cases hdup : table.filter (fun e => e.user == user && e.hash == hash C) ≠ []
  · exfalso
    unfold addMemory at hok
    rw [if_pos hdup] at hok
    simp at hok
  push_neg at hdup
  have hpredF : ∀ e ∈ table, (e.user == user && e.hash == hash C) = false := by
    intro e he
    have := List.filter_eq_nil_iff.mp hdup e he
    simpa using this
  have ht1 : (addMemory hash emb1 true id1 now1 maxE table user C A1 su1 ct1).2
      = enforceMaxEntries maxE user (table ++
        [mkEntry hash emb1 id1 now1 user C A1 su1 ct1]) := by
    unfold addMemory
    rw [if_neg (by simp [hdup])]
    rfl
  set E1 := mkEntry hash emb1 id1 now1 user C A1 su1 ct1 with hE1
  have hE1pred : (E1.user == user && E1.hash == hash C) = true := by
    rw [hE1]; simp [mkEntry]
  -- the inserted row survives the eviction pass, and it is the only row
  -- carrying C's content hash for this user
  have hchron : ∀ x ∈ table.filter (fun e2 => e2.user == user),
      x.createdAt < E1.createdAt := by
    intro x hx
    have hxt : x ∈ table := (List.mem_filter.mp hx).1
    have hca : E1.createdAt = now1 := by rw [hE1]; rfl
    rw [hca]
    exact hnew x hxt
  have huser : (table ++ [E1]).filter (fun e2 => e2.user == user) =
      table.filter (fun e2 => e2.user == user) ++ [E1] := by
    rw [List.filter_append]
    congr 1
    simp [hE1, mkEntry]
  have hkey : ((addMemory hash emb1 true id1 now1 maxE table user C A1 su1
      ct1).2).filter (fun e => e.user == user && e.hash == hash C) = [E1] := by
    rw [ht1]
    unfold enforceMaxEntries
    split
    · -- over the cap: the eviction filter keeps E1 because its id is
      -- fresh and it is strictly newest
      refine filter_pred_append_keep _ _ table E1 hpredF hE1pred ?_
      have hsortapp : sortByCreated ((table ++ [E1]).filter
          (fun e2 => e2.user == user)) =
          sortByCreated (table.filter (fun e2 => e2.user == user)) ++ [E1] := by
        rw [huser]
        exact sortByCreated_append_big E1 _ hchron
      have hlen : (sortByCreated (table.filter
          (fun e2 => e2.user == user))).length =
          (table.filter (fun e2 => e2.user == user)).length :=
        (sortByCreated_perm _).length_eq
      have htake : (sortByCreated ((table ++ [E1]).filter
            (fun e2 => e2.user == user))).take
            (((table ++ [E1]).filter (fun e2 => e2.user == user)).length - maxE)
          = (sortByCreated (table.filter (fun e2 => e2.user == user))).take
            (((table ++ [E1]).filter (fun e2 => e2.user == user)).length
              - maxE) := by
        rw [hsortapp, List.take_append_eq_append_take]
        have hz : ((table ++ [E1]).filter
            (fun e2 => e2.user == user)).length - maxE -
            (sortByCreated (table.filter (fun e2 => e2.user == user))).length
            = 0 := by
          rw [huser, hlen]
          simp only [List.length_append, List.length_cons, List.length_nil]
          omega
        rw [hz]
        simp
      show (!decide (E1.id ∈ ((sortByCreated ((table ++ [E1]).filter
          (fun e2 => e2.user == user))).take
          (((table ++ [E1]).filter (fun e2 => e2.user == user)).length
            - maxE)).map (fun o => o.id))) = true
      simp only [Bool.not_eq_true', decide_eq_false_iff_not]
      rw [htake]
      intro hmem
      rcases List.mem_map.mp hmem with ⟨y, hy, hyid⟩
      have hy1 : y ∈ sortByCreated (table.filter (fun e2 => e2.user == user)) :=
        List.mem_of_mem_take hy
      have hy2 : y ∈ table.filter (fun e2 => e2.user == user) :=
        (sortByCreated_perm _).subset hy1
      have hy3 : y ∈ table := (List.mem_filter.mp hy2).1
      have hca : E1.id = id1 := by rw [hE1]; rfl
      rw [hca] at hyid
      exact hid (hyid ▸ List.mem_map_of_mem (fun e => e.id) hy3)
    · -- within the cap: no eviction at all
      rw [List.filter_append]
      rw [List.filter_eq_nil_iff.mpr (fun e he => by simp [hpredF e he])]
      simp [hE1pred]
  refine ⟨?_, ?_⟩
  · exact addMemory_of_dup hash emb2 persist2 id2 now2 maxE _ user C A2 su2
      ct2 (by rw [hkey]; simp)
  · rw [hkey]
    rfl

/-- Witness for C3: on an empty table with cap 1, a first
`add(7, "c", "a1")` succeeds and a second `add(7, "c", "a2")` with a
different analysis is rejected, leaving exactly one row with the hash of
`"c"`. -/
theorem addMemory_duplicate_content_witness :
    addMemory (fun s => s) [] false 2 9 1
        ((addMemory (fun s => s) [] true 1 5 1 [] 7 "c" "a1" none
          "tiktok").2) 7 "c" "a2" none "tiktok" =
      (false, (addMemory (fun s => s) [] true 1 5 1 [] 7 "c" "a1" none
        "tiktok").2) ∧
    (((addMemory (fun s => s) [] true 1 5 1 [] 7 "c" "a1" none
        "tiktok").2).filter
      (fun e => e.user == 7 && e.hash == "c")).length = 1 :=
  addMemory_duplicate_content (fun s => s) [] [] false 1 2 5 9 1 [] 7
    "c" "a1" "a2" none none "tiktok" "tiktok" (by norm_num) (by simp)
    (by simp) (by decide)

/-- A stored row whose text contains the query word "tips". -/
def sampleKwA : Entry :=
  { id := 11, user := 1, hash := "k", contentType := "tiktok",
    sourceUrl := none, content := "hello world tips",
    analysis := "useful tips", embedding := none, summary := "",
    createdAt := 100 }

/-- A stored row sharing the token "alpha" with the query
"alpha beta" but not containing the whole query as a substring. -/
def sampleKwB : Entry :=
  { id := 12, user := 1, hash := "k2", contentType := "tiktok",
    sourceUrl := none, content := "alpha gamma", analysis := "",
    embedding := none, summary := "", createdAt := 101 }

/-- Counterexample for C4 as stated.  First conjunct pair: with a healthy
query embedding, a vector search that scores zero qualifying entries
makes `search_memory` return `[]` — it does not fall back to the keyword
search, which here would have found a row.  Second pair: when the
embedding call fails, the fallback is whole-query `ilike` substring
matching, not token matching: a row sharing the token "alpha" with the
query "alpha beta" is not returned. -/
theorem searchMemory_claim_counterexample :
    (searchMemory [1] (Except.ok []) [sampleKwA] 1 "tips" 3 = [] ∧
      keywordSearch [sampleKwA] 1 "tips" 3 ≠ []) ∧
    (specSharesToken sampleKwB "alpha beta" = true ∧
      searchMemory [] (Except.ok []) [sampleKwB] 1 "alpha beta" 3 = []) := by
  refine ⟨⟨?_, ?_⟩, ?_, ?_⟩ <;> decide

/-- C4 (amended): `search_memory` falls back to `_keyword_search` exactly
when the query embedding comes back empty (provider failure) or the
vector RPC raises; a successful vector search with zero qualifying rows
returns the empty list instead.  The keyword fallback returns at most
`top_k` of the user's entries — those whose content or analysis contains
the whole query as a case-insensitive substring — each with similarity
`0.0`; and (given the RPC honours its `match_count = top_k` argument) no
code path returns more than `top_k` entries or raises. -/
theorem searchMemory_fallback (emb : List ℚ) (rpc : Except Unit (List RpcRow))
    (table : List Entry) (user : ℕ) (query : String) (topK : ℕ) :
    (emb = [] → searchMemory emb rpc table user query topK =
      keywordSearch table user query topK) ∧
    (rpc = .error () → searchMemory emb rpc table user query topK =
      keywordSearch table user query topK) ∧
    (emb ≠ [] → rpc = .ok [] →
      searchMemory emb rpc table user query topK = []) ∧
    ((keywordSearch table user query topK).length ≤ topK) ∧
    (∀ r ∈ keywordSearch table user query topK, r.similarity = 0) ∧
    (∀ rows, rpc = .ok rows → rows.length ≤ topK →
      (searchMemory emb rpc table user query topK).length ≤ topK) := by
  refine ⟨?_, ?_, ?_, ?_, ?_, ?_⟩
  · intro h
    unfold searchMemory
    rw [if_pos h]
  · intro h
    subst h
    unfold searchMemory
    split
    · rfl
    · rfl
  · intro hne h
    subst h
    unfold searchMemory
    rw [if_neg hne]
    simp
  · unfold keywordSearch
    rw [List.length_map]
    exact List.length_take_le _ _
  · intro r hr
    unfold keywordSearch at hr
    rcases List.mem_map.mp hr with ⟨e, -, he⟩
    rw [← he]
  · intro rows h hlen
    subst h
    unfold searchMemory
    split
    · unfold keywordSearch
      rw [List.length_map]
      exact List.length_take_le _ _
    · show (if rows = [] then ([] : List SearchResult)
        else rows.map (fun r => { id := r.id, content := r.content,
                                  analysis := r.analysis, summary := r.summary,
                                  sourceUrl := r.sourceUrl, timestamp := r.createdAt,
                                  similarity := round3 (r.similarity.getD 0) })).length ≤ topK
      split
      · simp
      · rw [List.length_map]
        exact hlen

/-- Witness for C4 (amended): a failed embedding call falls back to the
keyword search, which returns the matching row with similarity `0.0`. -/
theorem searchMemory_fallback_witness :
    searchMemory [] (Except.error ()) [sampleKwA] 1 "tips" 3 =
      keywordSearch [sampleKwA] 1 "tips" 3 ∧
    keywordSearch [sampleKwA] 1 "tips" 3 =
      [{ id := 11, content := "hello world tips", analysis := "useful tips",
         summary := "", sourceUrl := none, timestamp := 100,
         similarity := 0 }] :=
  ⟨(searchMemory_fallback [] (Except.error ()) [sampleKwA] 1 "tips" 3).1 rfl,
   by decide⟩

/-! ## OpenAIClient (src/app/openai_client.py)

`analyze_text` loops `for attempt in range(3)`; each iteration issues the
primary Responses-API request and, when its output is empty, exactly one
simplified secondary request.  Exceptions from either request are caught:
with `attempt < 2` the code sleeps `2 ** attempt` seconds and retries,
otherwise it returns a fixed error string.  Provider call outcomes are
embedded as a stream `get : ℕ → CallResult` indexed by the order in which
requests are issued; the result records the returned text, the backoff
sleeps, and the user prompts of the requests actually sent. -/

/-- Outcome of one Responses-API request: generated text or a raised
provider error. -/
inductive CallResult where
  | ok (s : String)
  | err
  deriving Repr, DecidableEq

/-- The primary user prompt of `analyze_text`. -/
def userPrompt (text : String) : String :=
  "Проанализируй этот контент из TikTok видео:\n\n" ++ text

/-- The simplified secondary prompt (input truncated to 4000 characters,
shorter ask). -/
def simplePrompt (text : String) : String :=
  "Суммируй в 5 пунктах на русском:\n\n" ++ text.take 4000

/-- The fixed user-facing string returned after the final failed
attempt. -/
def analyzeErrMsg : String := "❌ Ошибка при анализе текста. Попробуйте позже."

/-- The explicit empty-result message returned when the primary and the
simplified outputs are both empty. -/
def analyzeEmptyMsg : String :=
  "Получен пустой ответ анализа от модели. Попробуйте другой ролик или повторите позже."

/-- The `return` after the loop (src/app/openai_client.py, line 101),
unreachable from a three-iteration run. -/
def analyzeExhaustedMsg : String := "❌ Ошибка при анализе текста после всех попыток."

/-- What one `analyze_text` call did: the string handed to the caller,
the `asyncio.sleep` backoffs performed, and the user prompts of the
requests issued, in order. -/
structure AnalyzeRes where
  result : String
  sleeps : List ℕ
  prompts : List String
  deriving Repr, DecidableEq

/-- The `for attempt in range(3)` loop of `analyze_text`
(src/app/openai_client.py, lines 41-101), with `fuel` iterations left. -/
def analyzeLoop (get : ℕ → CallResult) (text : String) :
    ℕ → ℕ → ℕ → AnalyzeRes
  | _, _, 0 => ⟨analyzeExhaustedMsg, [], []⟩
  | callIdx, attempt, fuel + 1 =>
    match get callIdx with
    | .ok s =>
      if stripStr s ≠ "" then ⟨stripStr s, [], [userPrompt text]⟩
      else
        match get (callIdx + 1) with
        | .ok s2 =>
          if stripStr s2 ≠ "" then
            ⟨stripStr s2, [], [userPrompt text, simplePrompt text]⟩
          else ⟨analyzeEmptyMsg, [], [userPrompt text, simplePrompt text]⟩
        | .err =>
          if attempt < 2 then
            let r := analyzeLoop get text (callIdx + 2) (attempt + 1) fuel
            ⟨r.result, 2 ^ attempt :: r.sleeps,
              userPrompt text :: simplePrompt text :: r.prompts⟩
          else ⟨analyzeErrMsg, [], [userPrompt text, simplePrompt text]⟩
    | .err =>
      if attempt < 2 then
        let r := analyzeLoop get text (callIdx + 1) (attempt + 1) fuel
        ⟨r.result, 2 ^ attempt :: r.sleeps, userPrompt text :: r.prompts⟩
      else ⟨analyzeErrMsg, [], [userPrompt text]⟩

/-- Embeds `OpenAIClient.analyze_text` (src/app/openai_client.py, lines
29-101). -/
def analyzeText (get : ℕ → CallResult) (text : String) : AnalyzeRes :=
  analyzeLoop get text 0 0 3

/-- Every exit of the loop hands back a non-empty string. -/
theorem analyzeLoop_result_ne (get : ℕ → CallResult) (text : String) :
    ∀ fuel callIdx attempt,
      (analyzeLoop get text callIdx attempt fuel).result ≠ "" := by
  have hne1 : analyzeEmptyMsg ≠ "" := by decide
  have hne2 : analyzeErrMsg ≠ "" := by decide
  have hne3 : analyzeExhaustedMsg ≠ "" := by decide
  intro fuel
  induction fuel with
  | zero =>
    intro callIdx attempt
    simpa [analyzeLoop] using hne3
  | succ n ih =>
    intro callIdx attempt
    simp only [analyzeLoop]
    cases hg : get callIdx with
    | ok s =>
      by_cases h1 : stripStr s ≠ ""
      · simp [h1]
      · rw [not_not] at h1
        cases hg2 : get (callIdx + 1) with
        | ok s2 =>
          by_cases h2 : stripStr s2 ≠ ""
          · simp [h1, h2]
          · rw [not_not] at h2
            simp [h1, h2, hne1]
        | err =>
          by_cases ha : attempt < 2
          · simpa [h1, ha] using ih (callIdx + 2) (attempt + 1)
          · simp [h1, ha, hne2]
    | err =>
      by_cases ha : attempt < 2
      · simpa [ha] using ih (callIdx + 1) (attempt + 1)
      · simp [ha, hne2]

/-- C6: `analyze_text` never raises and the caller always receives
non-empty text; when all three attempts raise, it sleeps 2^0 and 2^1
seconds between attempts and returns the fixed error string; when the
primary output is empty it issues exactly one simplified secondary
request, and when that is also empty it returns the explicit empty-result
message; a non-empty primary output is returned as-is (stripped) with no
retry. -/
theorem analyzeText_spec (get : ℕ → CallResult) (text : String) :
    (analyzeText get text).result ≠ "" ∧
    ((get 0 = .err ∧ get 1 = .err ∧ get 2 = .err) →
      analyzeText get text = ⟨analyzeErrMsg, [1, 2],
        [userPrompt text, userPrompt text, userPrompt text]⟩) ∧
    (∀ s s2, get 0 = .ok s → stripStr s = "" → get 1 = .ok s2 →
      stripStr s2 = "" →
      analyzeText get text =
        ⟨analyzeEmptyMsg, [], [userPrompt text, simplePrompt text]⟩) ∧
    (∀ s, get 0 = .ok s → stripStr s ≠ "" →
      analyzeText get text = ⟨stripStr s, [], [userPrompt text]⟩) := by
  refine ⟨analyzeLoop_result_ne get text 3 0 0, ?_, ?_, ?_⟩
  · rintro ⟨h0, h1, h2⟩
    unfold analyzeText
    simp [analyzeLoop, h0, h1, h2]
  · intro s s2 h0 hs h1 hs2
    unfold analyzeText
    simp [analyzeLoop, h0, h1, hs, hs2]
  · intro s h0 hs
    unfold analyzeText
    simp [analyzeLoop, h0, hs]

/-- Witness for C6: when the provider raises on every request, the caller
receives the fixed error string after backoffs of 1 and 2 seconds. -/
theorem analyzeText_spec_witness :
    analyzeText (fun _ => .err) "t" ≠ ⟨"", [], []⟩ ∧
    analyzeText (fun _ => .err) "t" = ⟨analyzeErrMsg, [1, 2],
      [userPrompt "t", userPrompt "t", userPrompt "t"]⟩ := by
  have h := analyzeText_spec (fun _ => CallResult.err) "t"
  refine ⟨?_, h.2.1 ⟨rfl, rfl, rfl⟩⟩
  intro hcontra
  exact h.1 (by rw [hcontra])

/-! ## OpenAIClient surface (C7)

The methods defined on the `OpenAIClient` class in
src/app/openai_client.py.  `cmd_ask` (src/app/handlers.py, line 210)
calls `openai_client.answer_from_memory(query, context)`, but no such
method exists on the class, so the call raises `AttributeError`, which
`cmd_ask`'s `except` turns into a generic error message. -/

/-- The method names defined on `OpenAIClient`
(src/app/openai_client.py, lines 17-158). -/
def openAIClientMethods : List String :=
  ["__init__", "analyze_text", "_build_system_prompt", "close"]

/-- C7 (refuted by the source): the analyzer client defines no
`answer_from_memory` method — the claim's second client method is absent
from the class, and the `/ask` handler's call to it can only raise. -/
theorem openAIClient_no_answer_from_memory :
    "answer_from_memory" ∉ openAIClientMethods := by
  decide

/-! ## Speech-to-text (src/app/stt_openai_api.py and src/app/stt_engine.py)

A provider segment carries dynamically typed `start`/`end`/`text` fields,
embedded as `PyVal`.  `transcribe_with_openai_whisper_api` normalizes
them (lines 153-172): a timestamp that is not an `int`/`float` becomes
`0.0`; `(seg_text or "").strip()` raises on a truthy non-string, and any
raise inside the loop replaces the whole segment list by `None`.
`STTEngine._transcribe_openai_api` (lines 80-100) then rebuilds
`Segment`s from those already-normalized dicts, dropping a segment only
if its own conversion raises. -/

/-- A dynamically typed field value of a provider segment. -/
inductive PyVal where
  | num (q : ℚ)
  | str (s : String)
  | none
  deriving Repr, DecidableEq

/-- A raw provider segment (`end` is a Lean keyword; the field is named
`stop`). -/
structure RawSeg where
  start : PyVal
  stop : PyVal
  text : PyVal
  deriving Repr, DecidableEq

/-- A normalized segment: the engine's `Segment` dataclass
(src/app/stt_engine.py, lines 15-20). -/
structure Seg where
  start : ℚ
  stop : ℚ
  text : String
  deriving Repr, DecidableEq

/-- Python `float(x) if isinstance(x, (int, float)) else 0.0`. -/
def floatOfVal : PyVal → ℚ
  | .num q => q
  | _ => 0

/-- Python `(seg_text or "").strip()`: `Option.none` models the `AttributeError`
raised on a truthy non-string value (a falsy `0` passes through `or` and
yields `""`). -/
def textOfVal : PyVal → Option String
  | .str s => some (stripStr s)
  | .none => some ""
  | .num q => if q = 0 then some "" else Option.none

/-- One iteration of the normalization loop in
`transcribe_with_openai_whisper_api`. -/
def normalizeSeg (s : RawSeg) : Option Seg :=
  match textOfVal s.text with
  | some t => some ⟨floatOfVal s.start, floatOfVal s.stop, t⟩
  | Option.none => Option.none

/-- Run `f` across a list, any raise discarding the whole result (the
`try`/`except` around the loop). -/
def mapOrNone (f : α → Option β) : List α → Option (List β)
  | [] => some []
  | a :: as =>
    match f a, mapOrNone f as with
    | some b, some bs => some (b :: bs)
    | _, _ => Option.none

/-- The segment normalization of `transcribe_with_openai_whisper_api`
(src/app/stt_openai_api.py, lines 153-172): a falsy (absent or empty)
`segments` value yields `None`, and any raise inside the loop yields
`None`. -/
def apiNormalize (segs : List RawSeg) : Option (List Seg) :=
  if segs = [] then Option.none
  else mapOrNone normalizeSeg segs

/-- The result dict of `transcribe_with_openai_whisper_api`. -/
structure ApiRes where
  text : String
  segments : Option (List Seg)
  language : Option String
  deriving Repr, DecidableEq

/-- Embeds `transcribe_with_openai_whisper_api` on a provider response. -/
def apiTranscribe (respText : String) (rawSegs : List RawSeg)
    (lang : Option String) : ApiRes :=
  ⟨stripStr respText, apiNormalize rawSegs, lang⟩

/-- The engine's `Transcript` dataclass. -/
structure Transcript where
  text : String
  segments : List Seg
  language : Option String
  deriving Repr, DecidableEq

/-- Embeds `STTEngine._transcribe_openai_api` (src/app/stt_engine.py, lines
80-100) applied to the API wrapper's result dict: `res.get("segments") or
[]`, then `Segment(float(..), float(..), text.strip())` per element
(whose conversion cannot raise on these already-normalized dicts). -/
def engineTranscribe (r : ApiRes) : Transcript :=
  ⟨stripStr r.text,
   (r.segments.getD []).map (fun s => ⟨s.start, s.stop, stripStr s.text⟩),
   r.language⟩

/-- Embeds `STTEngine.transcribe` end to end on a provider response. -/
def transcribeModel (respText : String) (rawSegs : List RawSeg)
    (lang : Option String) : Transcript :=
  engineTranscribe (apiTranscribe respText rawSegs lang)

/-- Counterexample for C9 as stated: a provider segment with a malformed
(string) `start` and a negative `end` is not dropped — it is kept with
`start = 0.0`, `end = -1.0` — so the returned transcript contains a
segment violating `end ≥ start`. -/
theorem transcribe_claim_counterexample :
    (transcribeModel "hi" [⟨.str "abc", .num (-1), .str "x"⟩]
      Option.none).segments = [⟨0, -1, "x"⟩] ∧
    ¬ (∀ s ∈ (transcribeModel "hi" [⟨.str "abc", .num (-1), .str "x"⟩]
      Option.none).segments, 0 ≤ s.start ∧ s.start ≤ s.stop) := by
  constructor
  · rfl
  · intro h
    have hs := h ⟨0, -1, "x"⟩ (by rw [show (transcribeModel "hi"
      [⟨.str "abc", .num (-1), .str "x"⟩] Option.none).segments
        = [⟨0, -1, "x"⟩] from rfl]; simp)
    have : (0 : ℚ) ≤ -1 := hs.2
    norm_num at this

/-- With string-or-missing text fields no iteration of the normalization
loop raises, so the loop reduces to a plain map. -/
theorem mapOrNone_normalizeSeg : ∀ (l : List RawSeg),
    (∀ s ∈ l, (∃ t, s.text = PyVal.str t) ∨ s.text = PyVal.none) →
    mapOrNone normalizeSeg l = some (l.map (fun s =>
      ⟨floatOfVal s.start, floatOfVal s.stop,
        stripStr (match s.text with | .str t => t | _ => "")⟩)) := by
  intro l
  induction l with
  | nil => intro _; rfl
  | cons a as ih =>
    intro htext
    have ih' := ih (fun s hs => htext s (List.mem_cons_of_mem a hs))
    rcases htext a (List.mem_cons_self a as) with ⟨t, ht⟩ | ht
    · simp [mapOrNone, normalizeSeg, textOfVal, ht, ih']
    · simp [mapOrNone, normalizeSeg, textOfVal, ht, ih',
        show stripStr "" = "" from rfl]

/-- C9 (amended): `transcribe` never aborts on malformed timestamp
fields; as long as every segment's `text` field is a string or missing,
the transcript keeps the segments one-for-one, with each timestamp equal
to the provider's numeric value (a non-numeric timestamp is defaulted to
`0.0`, the segment kept); no sign or ordering constraint is enforced on
the timestamps. -/
theorem transcribeModel_segments_spec (respText : String)
    (rawSegs : List RawSeg) (lang : Option String)
    (hne : rawSegs ≠ [])
    (htext : ∀ s ∈ rawSegs, (∃ t, s.text = .str t) ∨ s.text = .none) :
    (transcribeModel respText rawSegs lang).segments =
      rawSegs.map (fun s => ⟨floatOfVal s.start, floatOfVal s.stop,
        stripStr (stripStr (match s.text with
          | .str t => t
          | _ => ""))⟩) := by
  have hmap := mapOrNone_normalizeSeg rawSegs htext
  unfold transcribeModel engineTranscribe apiTranscribe apiNormalize
  rw [if_neg hne, hmap]
  simp only [Option.getD_some, List.map_map]
  rfl

/-- Witness for C9 (amended): two provider segments — one numeric with
padded text, one with a string `start` and missing `end`/`text` — are
both kept, normalized to `(1, 2, "a")` and `(0, 0, "")`. -/
theorem transcribeModel_segments_spec_witness :
    (transcribeModel "hi" [⟨.num 1, .num 2, .str " a "⟩,
      ⟨.str "x", .none, .none⟩] Option.none).segments =
      [⟨1, 2, "a"⟩, ⟨0, 0, ""⟩] := by
  rw [transcribeModel_segments_spec "hi" [⟨.num 1, .num 2, .str " a "⟩,
    ⟨.str "x", .none, .none⟩] Option.none (by simp) ?_]
  · rfl
  · intro s hs
    simp only [List.mem_cons, List.not_mem_nil, or_false] at hs
    rcases hs with rfl | rfl
    · exact Or.inl ⟨" a ", rfl⟩
    · exact Or.inr rfl

/-! ## VideoProcessor.send_analysis_chunks (src/app/video_processor.py,
lines 123-137)

The `while text:` slicing loop is embedded with an explicit fuel equal to
the text length: each iteration removes `max_len ≥ 1` characters, so the
fuel never runs out on the configured (positive) maximum message length.
A `max_len` of `0` would make the Python loop spin forever; the fuel
cases return `[]` there and the theorems assume `0 < maxLen`. -/

def chunkLoopF (maxLen : ℕ) : ℕ → List Char → List (List Char)
  | 0, _ => []
  | _, [] => []
  | fuel + 1, c :: rest =>
    if maxLen = 0 then []
    else (c :: rest).take maxLen :: chunkLoopF maxLen fuel ((c :: rest).drop maxLen)

/-- Embeds `VideoProcessor.send_analysis_chunks`: empty or whitespace-only
analysis yields `[]`; otherwise the stripped text is sliced into
`max_len`-character chunks. -/
def sendAnalysisChunks (maxLen : ℕ) (analysis : String) : List String :=
  if stripStr analysis = "" then []
  else (chunkLoopF maxLen (stripStr analysis).data.length
    (stripStr analysis).data).map (fun cs => ⟨cs⟩)

theorem chunkLoopF_join (maxLen : ℕ) (hpos : 0 < maxLen) :
    ∀ fuel (l : List Char), l.length ≤ fuel →
      (chunkLoopF maxLen fuel l).flatten = l := by
  intro fuel
  induction fuel with
  | zero =>
    intro l hl
    have : l = [] := List.eq_nil_of_length_eq_zero (by omega)
    subst this
    rfl
  | succ n ih =>
    intro l hl
    match l with
    | [] => rfl
    | c :: rest =>
      rw [chunkLoopF, if_neg (by omega), List.flatten_cons,
        ih ((c :: rest).drop maxLen) (by simp [List.length_drop]; simp at hl; omega)]
      exact List.take_append_drop maxLen (c :: rest)

theorem chunkLoopF_mem (maxLen : ℕ) (hpos : 0 < maxLen) :
    ∀ fuel (l : List Char) c, c ∈ chunkLoopF maxLen fuel l →
      c ≠ [] ∧ c.length ≤ maxLen := by
  intro fuel
  induction fuel with
  | zero =>
    intro l c hc
    simp [chunkLoopF] at hc
  | succ n ih =>
    intro l c hc
    match l with
    | [] => simp [chunkLoopF] at hc
    | x :: rest =>
      rw [chunkLoopF, if_neg (by omega)] at hc
      rcases List.mem_cons.mp hc with rfl | hc
      · refine ⟨by simp [List.take_eq_nil_iff]; omega, ?_⟩
        rw [List.length_take]
        omega
      · exact ih _ c hc

/-- C10: for a positive configured maximum message length, the in-order
concatenation of `send_analysis_chunks(s)` equals `s` stripped of leading
and trailing whitespace, every chunk is non-empty with at most `max_len`
characters, and an empty or whitespace-only `s` yields `[]`. -/
theorem sendAnalysisChunks_spec (maxLen : ℕ) (analysis : String)
    (hpos : 0 < maxLen) :
    ((sendAnalysisChunks maxLen analysis).map String.data).flatten =
      (stripStr analysis).data ∧
    (∀ c ∈ sendAnalysisChunks maxLen analysis,
      c ≠ "" ∧ c.length ≤ maxLen) ∧
    (stripStr analysis = "" → sendAnalysisChunks maxLen analysis = []) := by
  refine ⟨?_, ?_, ?_⟩
  · unfold sendAnalysisChunks
    split
    · rename_i h
      simp only [List.map_nil, List.flatten_nil]
      rw [h]
    · rw [List.map_map]
      have hdata : (String.data ∘ fun cs => (⟨cs⟩ : String)) = id := by
        funext cs
        rfl
      rw [hdata, List.map_id]
      exact chunkLoopF_join maxLen hpos _ _ le_rfl
  · intro c hc
    unfold sendAnalysisChunks at hc
    split at hc
    · simp at hc
    · rcases List.mem_map.mp hc with ⟨cs, hcs, rfl⟩
      have h := chunkLoopF_mem maxLen hpos _ _ cs hcs
      refine ⟨?_, h.2⟩
      intro hmk
      apply h.1
      have : (String.mk cs).data = ("" : String).data := by rw [hmk]
      simpa using this
  · intro h
    unfold sendAnalysisChunks
    rw [if_pos h]

/-- Witness for C10: at `max_len = 5` the analysis
`"  hello world  "` is stripped and split into `["hello", " worl", "d"]`,
whose concatenation is the stripped text. -/
theorem sendAnalysisChunks_spec_witness :
    sendAnalysisChunks 5 "  hello world  " = ["hello", " worl", "d"] ∧
    ((sendAnalysisChunks 5 "  hello world  ").map String.data).flatten =
      (stripStr "  hello world  ").data :=
  ⟨by decide, (sendAnalysisChunks_spec 5 "  hello world  " (by decide)).1⟩

/-! ## The URL handler pipeline (src/app/handlers.py, `handle_tiktok_url`,
lines 237-430, with src/app/video_processor.py)

One run is embedded as a function of the outcomes of its external steps.
The result tracks which temporary files were created on disk, which of
them ended up in the handler's `temp_files` list, and which were actually
deleted.  Key control-flow facts taken from the source:

* the duration pre-check (lines 262-266) runs before any subtitle or
  audio download;
* `extract_subtitles` returns the subtitle and converted-text files in
  its temp list, but if the conversion raises, the already-downloaded
  subtitle file is never recorded anywhere (video_processor.py lines
  29-41) and the handler merely logs (handlers.py lines 308-309);
* `extract_audio_transcript` deletes the audio file itself on a size
  violation before raising `ValueError` (video_processor.py lines 54-56);
  if transcription raises, its local temp list — already holding the
  audio file — is lost (lines 58-61);
* the handler returns early, WITHOUT reaching the
  `cleanup_temp_files(*temp_files)` call at line 404, on: audio download
  failure (line 319), the size-violation `ValueError` (line 331), other
  audio errors (line 335), and text shorter than 10 characters
  (line 339); the `finally` block only clears the FSM state;
* the success path (line 404) and the outer `except` path (line 419) do
  run `cleanup_temp_files(*temp_files)`. -/

/-- The temporary files a run can create. -/
inductive Artifact where
  | subFile
  | subTxt
  | audioFile
  | transcriptTxt
  | analysisFile
  deriving Repr, DecidableEq

/-- Outcome of the subtitle stage (`extract_subtitles`). -/
inductive SubtitleOutcome where
  | noSub
  | found (text : String)
  | foundConvertErr
  deriving Repr, DecidableEq

/-- Outcome of the audio stage (`extract_audio_transcript`). -/
inductive AudioOutcome where
  | dlFail
  | sizeViolation
  | sttErr
  | ok (text : String) (hasSegments : Bool)
  deriving Repr, DecidableEq

/-- How a run ended. -/
inductive Terminal where
  | rateLimited (reason : String)
  | noUrls
  | tooLong (msg : String)
  | initFailed
  | noAudio
  | sizeError (maxMb : ℕ)
  | audioError
  | tooShort
  | done
  | unhandledError
  deriving Repr, DecidableEq

/-- The external outcomes of one `handle_tiktok_url` run. -/
structure UrlEnv where
  rateAllowed : Bool
  rateReason : String
  validUrl : Bool
  /-- The `get_video_info` result: `none` = probe failed or falsy info dict;
  `some d?` = info dict whose optional `duration` field is `d?` seconds. -/
  info : Option (Option ℚ)
  maxDurMin : ℕ
  maxSizeMb : ℕ
  initOk : Bool
  sub : SubtitleOutcome
  audio : AudioOutcome
  /-- what `analyze_text` hands back (it always returns a string). -/
  analysis : String
  /-- a transport exception (other than `TelegramBadRequest`) while
  sending the extracted text, reaching the outer `except`. -/
  sendDocRaises : Bool
  deriving Repr, DecidableEq

/-- What one run did: its terminal state, every file created on disk,
the handler's `temp_files` list at the end, the files actually deleted,
and whether any subtitle/audio download was attempted. -/
structure RunResult where
  terminal : Terminal
  created : List Artifact
  recorded : List Artifact
  cleaned : List Artifact
  downloadsAttempted : Bool
  deriving Repr, DecidableEq

/-- Python's `"%.1f" % x` used by the duration message (CPython rounds
half to even; this embedding rounds half up, which agrees at every
non-tie value and in particular on the claims' inputs). -/
def fmt1 (q : ℚ) : String :=
  toString (⌊q * 10 + 1 / 2⌋ / 10) ++ "." ++ toString (⌊q * 10 + 1 / 2⌋ % 10)

/-- The duration-exceeded message of handlers.py line 265, carrying the
formatted duration in minutes and the configured ceiling. -/
def tooLongMsg (dStr : String) (maxMin : ℕ) : String :=
  "❌ Видео слишком длинное (" ++ dStr ++
    " мин). Максимальная длительность: " ++ toString maxMin ++ " мин."

/-- Steps 3-6 of the handler once usable text exists (handlers.py lines
337-411): the minimum-length check, sending the text file, analysis
(which creates a file only for non-empty output), then — only on this
path — the `cleanup_temp_files(*temp_files)` call; an unhandled transport
exception instead reaches the outer `except`, which also cleans the
recorded files. -/
def afterText (env : UrlEnv) (t : String)
    (created recorded : List Artifact) : RunResult :=
  if (stripStr t).length < 10 then
    ⟨.tooShort, created, recorded, [], true⟩
  else if env.sendDocRaises then
    ⟨.unhandledError, created, recorded, recorded, true⟩
  else if stripStr env.analysis ≠ "" then
    ⟨.done, created ++ [.analysisFile], recorded ++ [.analysisFile],
      recorded ++ [.analysisFile], true⟩
  else ⟨.done, created, recorded, recorded, true⟩

/-- Step 2 of the handler (`extract_audio_transcript` and the
surrounding `try`, handlers.py lines 312-335). -/
def audioStage (env : UrlEnv) (created recorded : List Artifact) :
    RunResult :=
  match env.audio with
  | .dlFail => ⟨.noAudio, created, recorded, [], true⟩
  | .sizeViolation =>
    ⟨.sizeError env.maxSizeMb, created ++ [.audioFile], recorded,
      [.audioFile], true⟩
  | .sttErr => ⟨.audioError, created ++ [.audioFile], recorded, [], true⟩
  | .ok t _ =>
    if t = "" then
      ⟨.noAudio, created ++ [.audioFile, .transcriptTxt],
        recorded ++ [.audioFile, .transcriptTxt], [], true⟩
    else
      afterText env t (created ++ [.audioFile, .transcriptTxt])
        (recorded ++ [.audioFile, .transcriptTxt])

/-- The body of the handler's outer `try` (handlers.py lines 271-411):
client initialization, the subtitle stage, then the audio stage when no
usable subtitle text was produced. -/
def runPipeline (env : UrlEnv) : RunResult :=
  if !env.initOk then ⟨.initFailed, [], [], [], false⟩
  else
    match env.sub with
    | .found t =>
      if t = "" then
        audioStage env [.subFile, .subTxt] [.subFile, .subTxt]
      else afterText env t [.subFile, .subTxt] [.subFile, .subTxt]
    | .noSub => audioStage env [] []
    | .foundConvertErr => audioStage env [.subFile] []

/-- Embeds `handle_tiktok_url` (handlers.py lines 237-430): rate-limit check,
URL extraction, the pre-flight duration probe, then the pipeline body. -/
def runUrlHandler (env : UrlEnv) : RunResult :=
  if !env.rateAllowed then ⟨.rateLimited env.rateReason, [], [], [], false⟩
  else if !env.validUrl then ⟨.noUrls, [], [], [], false⟩
  else
    match env.info with
    | some (some d) =>
      if (env.maxDurMin : ℚ) < d / 60 then
        ⟨.tooLong (tooLongMsg (fmt1 (d / 60)) env.maxDurMin),
          [], [], [], false⟩
      else runPipeline env
    | _ => runPipeline env

/-- C8: whenever the metadata probe reports a duration whose minute value
exceeds the configured ceiling, the run is rejected before any subtitle
or audio download is attempted (no download, no artifact), and the error
message carries the duration in minutes formatted to one decimal together
with the configured ceiling value. -/
theorem urlHandler_duration_precheck (env : UrlEnv) (d : ℚ)
    (hrate : env.rateAllowed = true) (hurl : env.validUrl = true)
    (hinfo : env.info = some (some d))
    (hover : (env.maxDurMin : ℚ) < d / 60) :
    runUrlHandler env =
      ⟨.tooLong (tooLongMsg (fmt1 (d / 60)) env.maxDurMin),
        [], [], [], false⟩ := by
  unfold runUrlHandler
  rw [hrate, hurl, hinfo]
  simp [hover]

/-- A 15-minute video against the default 10-minute ceiling. -/
def envLongVideo : UrlEnv :=
  { rateAllowed := true, rateReason := "", validUrl := true,
    info := some (some 900), maxDurMin := 10, maxSizeMb := 50,
    initOk := true, sub := .noSub, audio := .dlFail, analysis := "",
    sendDocRaises := false }

/-- Witness for C8: the 900-second probe result is rejected with a
message carrying "15.0" and "10", before any download. -/
theorem urlHandler_duration_precheck_witness :
    runUrlHandler envLongVideo =
      ⟨.tooLong (tooLongMsg "15.0" 10), [], [], [], false⟩ := by
  have h := urlHandler_duration_precheck envLongVideo 900 rfl rfl rfl
    (by norm_num [envLongVideo])
  rw [h]
  have h15 : (900 : ℚ) / 60 = 15 := by norm_num
  have hmax : envLongVideo.maxDurMin = 10 := rfl
  rw [h15, hmax]
  have hf : fmt1 15 = "15.0" := by
    unfold fmt1
    have hfl : ⌊(15 : ℚ) * 10 + 1 / 2⌋ = 150 := by norm_num
    rw [hfl]
    decide
  rw [hf]

/-- A run whose subtitles convert to the two-character text "hi": the
subtitle and converted-text files are created and recorded, the run ends
at the minimum-length check, and nothing is cleaned. -/
def envShortText : UrlEnv :=
  { rateAllowed := true, rateReason := "", validUrl := true,
    info := Option.none, maxDurMin := 10, maxSizeMb := 50,
    initOk := true, sub := .found "hi", audio := .dlFail,
    analysis := "ok", sendDocRaises := false }

/-- C1 (the code violates the claim): on the handled
too-short-text failure the handler returns at handlers.py line 339
without reaching the cleanup call at line 404, so the subtitle and
converted-text files created during the run are never deleted. -/
theorem cleanup_claim_failing_run :
    (runUrlHandler envShortText).terminal = .tooShort ∧
    (runUrlHandler envShortText).created = [.subFile, .subTxt] ∧
    (runUrlHandler envShortText).cleaned = [] := by
  decide

end Audiotext
